import Mathlib

/-!
Verification of the live-subtitles streaming pipeline (`live_subs_mac.py`).

The Python source is shallowly embedded: audio samples are modelled as exact
rationals (the float computations of the source are linear interpolation and
length arithmetic, which the claims evaluate at exactly representable values),
NumPy arrays become `List ℚ`, Python strings become `List Char`, and the
stateful worker loops become explicit state-passing functions.  Python's
`round` (banker's rounding) and `int` truncation are modelled explicitly.
-/

/-- `TARGET_SR = 16000`, the sample rate required by the ASR engine
(`live_subs_mac.py:30`). -/
def TARGET_SR : ℕ := 16000

/-- `BLOCK_SEC = 2.5`, the analysis-window duration in seconds
(`live_subs_mac.py:31`). -/
def BLOCK_SEC : ℚ := 5 / 2

/-- `OVERLAP_SEC = 0.5`, the overlap between consecutive windows
(`live_subs_mac.py:32`). -/
def OVERLAP_SEC : ℚ := 1 / 2

/-- `KEEP_LINES = 4`, how many caption lines the overlay retains
(`live_subs_mac.py:33`). -/
def KEEP_LINES : ℕ := 4

/-- `approx_src_sr = 48000`, the assumed native rate used by `asr_thread`
(`live_subs_mac.py:196`). -/
def approx_src_sr : ℕ := 48000

/-- The retention cap `48000 * 60` applied to `src_buffer`
(`live_subs_mac.py:212`). -/
def maxRetention : ℕ := 48000 * 60

/-- Python's `round` on an exact value: round half to even
(banker's rounding), as used for `dst_len` in `simple_resample`
(`live_subs_mac.py:74`). -/
def pyRound (q : ℚ) : ℤ :=
  if q - ⌊q⌋ < 1 / 2 then ⌊q⌋
  else if 1 / 2 < q - ⌊q⌋ then ⌊q⌋ + 1
  else if ⌊q⌋ % 2 = 0 then ⌊q⌋ else ⌊q⌋ + 1

/-- `target_block = int(TARGET_SR * BLOCK_SEC)` (`live_subs_mac.py:193`);
the value is a positive integer, so `int` truncation is the floor. -/
def target_block : ℕ := (⌊(TARGET_SR : ℚ) * BLOCK_SEC⌋).toNat

/-- `need_src_len = int((BLOCK_SEC + OVERLAP_SEC) * approx_src_sr)`
(`live_subs_mac.py:215`); the source derives it from the assumed
`approx_src_sr = 48000`, not from the rate negotiated with the device. -/
def need_src_len : ℕ := (⌊(BLOCK_SEC + OVERLAP_SEC) * (approx_src_sr : ℚ)⌋).toNat

/-- `np.interp` at normalized position `p`, with sample positions
`np.linspace(0, 1, len x)` (`live_subs_mac.py:77`–`80`): the piecewise-linear
interpolant through the points `(i/(len-1), x i)`, clamped to the last sample
at the right end (and constant when `x` has a single sample). -/
def interpAt (x : List ℚ) (p : ℚ) : ℚ :=
  let t : ℚ := p * ((x.length : ℚ) - 1)
  let i : ℕ := (⌊t⌋).toNat
  if i + 1 < x.length then
    x.getD i 0 + (t - (i : ℚ)) * (x.getD (i + 1) 0 - x.getD i 0)
  else
    x.getD (x.length - 1) 0

/-- `simple_resample(x, src_sr, dst_sr)` (`live_subs_mac.py:68`–`81`):
identity when the rates agree or the input is empty; otherwise the output
length is `round(len(x) * (dst_sr / src_sr))`, except that a degenerate
length `≤ 1` returns `x[:1]`; otherwise linear interpolation at the
positions `np.linspace(0, 1, dst_len)`. -/
def simple_resample (x : List ℚ) (src_sr dst_sr : ℕ) : List ℚ :=
  if src_sr = dst_sr ∨ x.length = 0 then x
  else
    let dst_len : ℕ := (pyRound ((x.length : ℚ) * ((dst_sr : ℚ) / (src_sr : ℚ)))).toNat
    if dst_len ≤ 1 then x.take 1
    else (List.range dst_len).map
      (fun (j : ℕ) => interpAt x ((j : ℚ) / ((dst_len : ℚ) - 1)))

lemma target_block_eq : target_block = 40000 := by
  have h : ⌊(TARGET_SR : ℚ) * BLOCK_SEC⌋ = 40000 := by
    norm_num [TARGET_SR, BLOCK_SEC]
  rw [target_block, h]
  rfl

lemma need_src_len_eq : need_src_len = 144000 := by
  have h : ⌊(BLOCK_SEC + OVERLAP_SEC) * (approx_src_sr : ℚ)⌋ = 144000 := by
    norm_num [BLOCK_SEC, OVERLAP_SEC, approx_src_sr]
  rw [need_src_len, h]
  rfl

lemma pyRound_natCast (n : ℕ) : pyRound ((n : ℚ)) = n := by
  have h : ⌊((n : ℕ) : ℚ)⌋ = (n : ℤ) := Int.floor_natCast n
  have h0 : ((n : ℚ)) - (((n : ℤ) : ℚ)) = 0 := by push_cast; ring
  rw [pyRound, h, h0]
  norm_num

lemma getD_mem_of_lt (x : List ℚ) (i : ℕ) (h : i < x.length) : x.getD i 0 ∈ x := by
  rw [List.getD_eq_getElem?_getD, List.getElem?_eq_getElem h]
  exact List.getElem_mem h

lemma convex_bounds (u v θ a b : ℚ) (hau : a ≤ u) (hub : u ≤ b) (hav : a ≤ v)
    (hvb : v ≤ b) (h0 : 0 ≤ θ) (h1 : θ ≤ 1) :
    a ≤ u + θ * (v - u) ∧ u + θ * (v - u) ≤ b := by
  constructor <;> nlinarith

lemma interpAt_bounds (x : List ℚ) (p a b : ℚ) (hx : x ≠ []) (hp : 0 ≤ p)
    (ha : ∀ v ∈ x, a ≤ v) (hb : ∀ v ∈ x, v ≤ b) :
    a ≤ interpAt x p ∧ interpAt x p ≤ b := by
  have hL : 0 < x.length := List.length_pos.mpr hx
  have hL1 : (1 : ℚ) ≤ (x.length : ℚ) := by exact_mod_cast hL
  have ht : 0 ≤ p * ((x.length : ℚ) - 1) := mul_nonneg hp (by linarith)
  have hfl : 0 ≤ ⌊p * ((x.length : ℚ) - 1)⌋ := Int.floor_nonneg.mpr ht
  have hicast : (((⌊p * ((x.length : ℚ) - 1)⌋).toNat : ℤ) : ℚ)
      = ((⌊p * ((x.length : ℚ) - 1)⌋ : ℤ) : ℚ) := by
    rw [Int.toNat_of_nonneg hfl]
  have hθ0 : 0 ≤ p * ((x.length : ℚ) - 1) - ((⌊p * ((x.length : ℚ) - 1)⌋).toNat : ℚ) := by
    have hle : ((⌊p * ((x.length : ℚ) - 1)⌋ : ℤ) : ℚ) ≤ p * ((x.length : ℚ) - 1) :=
      Int.floor_le _
    have := hicast
    push_cast at this ⊢
    linarith
  have hθ1 : p * ((x.length : ℚ) - 1) - ((⌊p * ((x.length : ℚ) - 1)⌋).toNat : ℚ) ≤ 1 := by
    have hlt : p * ((x.length : ℚ) - 1) < (⌊p * ((x.length : ℚ) - 1)⌋ : ℚ) + 1 :=
      Int.lt_floor_add_one _
    have := hicast
    push_cast at this ⊢
    linarith
  rw [interpAt]
  split_ifs with hcase
  · have hi : (⌊p * ((x.length : ℚ) - 1)⌋).toNat < x.length := by omega
    exact convex_bounds _ _ _ _ _
      (ha _ (getD_mem_of_lt x _ hi)) (hb _ (getD_mem_of_lt x _ hi))
      (ha _ (getD_mem_of_lt x _ hcase)) (hb _ (getD_mem_of_lt x _ hcase))
      hθ0 hθ1
  · have hlast : x.length - 1 < x.length := by omega
    exact ⟨ha _ (getD_mem_of_lt x _ hlast), hb _ (getD_mem_of_lt x _ hlast)⟩

lemma simple_resample_nil (s d : ℕ) : simple_resample [] s d = [] := by
  simp [simple_resample]

lemma simple_resample_mem_bounds (x : List ℚ) (s d : ℕ) (a b : ℚ) (hx : x ≠ [])
    (ha : ∀ v ∈ x, a ≤ v) (hb : ∀ v ∈ x, v ≤ b) :
    ∀ y ∈ simple_resample x s d, a ≤ y ∧ y ≤ b := by
  intro y hy
  simp only [simple_resample] at hy
  split_ifs at hy with h1 h2
  · exact ⟨ha y hy, hb y hy⟩
  · exact ⟨ha y (List.mem_of_mem_take hy), hb y (List.mem_of_mem_take hy)⟩
  · rw [List.mem_map] at hy
    obtain ⟨j, hj, rfl⟩ := hy
    set n : ℕ := (pyRound ((x.length : ℚ) * ((d : ℚ) / (s : ℚ)))).toNat with hn
    have hn2 : 2 ≤ n := by omega
    have hden : (1 : ℚ) ≤ (n : ℚ) - 1 := by
      have : (2 : ℚ) ≤ (n : ℚ) := by exact_mod_cast hn2
      linarith
    have hp : 0 ≤ (j : ℚ) / ((n : ℚ) - 1) :=
      div_nonneg (by positivity) (by linarith)
    exact interpAt_bounds x _ a b hx hp ha hb

lemma simple_resample_length (x : List ℚ) (s d : ℕ) (hs : 0 < s) :
    (simple_resample x s d).length =
      if x.length = 0 then 0
      else max 1 (pyRound ((x.length : ℚ) * ((d : ℚ) / (s : ℚ)))).toNat := by
  simp only [simple_resample]
  by_cases hsd : s = d
  · subst hsd
    rw [if_pos (Or.inl rfl)]
    by_cases hx : x.length = 0
    · rw [if_pos hx, hx]
    · rw [if_neg hx]
      have hs0 : ((s : ℚ)) ≠ 0 := by exact_mod_cast hs.ne'
      have hd : ((s : ℚ)) / ((s : ℚ)) = 1 := div_self hs0
      rw [hd, mul_one, pyRound_natCast, Int.toNat_natCast]
      omega
  · by_cases hx : x.length = 0
    · rw [if_pos (Or.inr hx), if_pos hx, hx]
    · rw [if_neg (by push_neg; exact ⟨hsd, hx⟩), if_neg hx]
      set n : ℕ := (pyRound ((x.length : ℚ) * ((d : ℚ) / (s : ℚ)))).toNat with hn
      by_cases h1 : n ≤ 1
      · rw [if_pos h1, List.length_take]
        omega
      · rw [if_neg h1, List.length_map, List.length_range]
        omega

lemma simple_resample_zero (x : List ℚ) (s d : ℕ) (hz : ∀ v ∈ x, v = 0) :
    ∀ y ∈ simple_resample x s d, y = 0 := by
  rcases eq_or_ne x [] with rfl | hx
  · rw [simple_resample_nil]
    intro y hy
    exact absurd hy (List.not_mem_nil y)
  · intro y hy
    have hb := simple_resample_mem_bounds x s d 0 0 hx
      (fun v hv => (hz v hv).ge) (fun v hv => (hz v hv).le) y hy
    linarith [hb.1, hb.2]

/-- A raw block delivered by the capture callback: a frame-major array of
per-channel samples, as produced by `sounddevice` into `indata`
(`live_subs_mac.py:164`). -/
abbrev RawBlock : Type := List (List ℚ)

/-- `raw_q.put(indata.copy())` in `audio_callback` (`live_subs_mac.py:167`):
`raw_q = queue.Queue()` (`live_subs_mac.py:84`) is an unbounded FIFO, so a
put appends the block at the tail and never blocks or drops. -/
def rawPut (q : List RawBlock) (b : RawBlock) : List RawBlock := q ++ [b]

/-- `block.mean(axis=1)` (`live_subs_mac.py:204`–`205`): fold a raw block to
mono by averaging the channels of each frame. -/
def monoMix (block : RawBlock) : List ℚ :=
  block.map (fun row => row.sum / (row.length : ℚ))

/-- The retention trim of `src_buffer` (`live_subs_mac.py:211`–`213`):
`if len(src_buffer) > 48000 * 60: src_buffer = src_buffer[-48000*60:]`. -/
def trimBuffer (b : List ℚ) : List ℚ :=
  if maxRetention < b.length then b.drop (b.length - maxRetention) else b

/-- One iteration of `asr_thread`'s buffer update (`live_subs_mac.py:204`–`213`):
fold the block to mono, append it to `src_buffer`, then trim to the cap. -/
def stepBuffer (buf : List ℚ) (block : RawBlock) : List ℚ :=
  trimBuffer (buf ++ monoMix block)

/-- The window-extraction step of `asr_thread` (`live_subs_mac.py:215`–`220`):
if the buffer holds at least `need_src_len` samples, take the most recent
`need_src_len`, resample them from `approx_src_sr` to `TARGET_SR`, and keep
the most recent `target_block` samples when the result is at least that long
(the source pads nothing when it is shorter). -/
def emitWindow (b : List ℚ) : Option (List ℚ) :=
  if need_src_len ≤ b.length then
    let mono16k := simple_resample (b.drop (b.length - need_src_len)) approx_src_sr TARGET_SR
    some (if target_block ≤ mono16k.length then
      mono16k.drop (mono16k.length - target_block) else mono16k)
  else none

/-- One full iteration of the `asr_thread` loop body on a dequeued block
(`live_subs_mac.py:198`–`220`): the updated `src_buffer` and the analysis
window dispatched to transcription, if any. -/
def asrStep (buf : List ℚ) (block : RawBlock) : List ℚ × Option (List ℚ) :=
  (stepBuffer buf block, emitWindow (stepBuffer buf block))

/-- The native-rate span length the segmenter must require before emitting a
window according to the specification: `(BLOCK_SEC + OVERLAP_SEC)` seconds at
the rate actually negotiated with the device (`src_sr` in `audio_thread`,
`live_subs_mac.py:172`), which the source never consults for this purpose. -/
def spec_need_src_len (negotiated_sr : ℕ) : ℕ :=
  (⌊(BLOCK_SEC + OVERLAP_SEC) * (negotiated_sr : ℚ)⌋).toNat

lemma emitWindow_some_length (b : List ℚ) :
    (emitWindow b).elim True (fun w => w.length = target_block) := by
  rw [emitWindow]
  split_ifs with h
  · simp only [Option.elim]
    have hclen : (b.drop (b.length - need_src_len)).length = need_src_len := by
      rw [List.length_drop]; omega
    have hr : (simple_resample (b.drop (b.length - need_src_len))
        approx_src_sr TARGET_SR).length = 48000 := by
      rw [simple_resample_length _ _ _ (by norm_num [approx_src_sr]), hclen,
        need_src_len_eq]
      have hv : ((144000 : ℕ) : ℚ) * ((TARGET_SR : ℚ) / (approx_src_sr : ℚ))
          = ((48000 : ℕ) : ℚ) := by
        norm_num [TARGET_SR, approx_src_sr]
      rw [if_neg (by norm_num), hv, pyRound_natCast, Int.toNat_natCast]
      omega
    rw [if_pos (by rw [hr, target_block_eq]; norm_num)]
    rw [List.length_drop, hr, target_block_eq]
  · simp only [Option.elim]

/-- Python's `str.strip()` with no argument, as called on caption text
(`live_subs_mac.py:310`–`311`): remove leading and trailing whitespace. -/
def pyStrip (s : List Char) : List Char :=
  ((s.dropWhile Char.isWhitespace).reverse.dropWhile Char.isWhitespace).reverse

/-- One caption append of `OverlayApp._tick` (`live_subs_mac.py:308`–`313`):
skip blank text, otherwise store the stripped text and keep only the last
`KEEP_LINES` lines. -/
def appendLine (lines : List (List Char)) (t : List Char) : List (List Char) :=
  if pyStrip t = [] then lines
  else
    let l1 := lines ++ [pyStrip t]
    if KEEP_LINES < l1.length then l1.drop (l1.length - KEEP_LINES) else l1

/-- A start/finish event of one synchronous `asr_transcribe_chunk` call made
by the single `asr_thread` loop (`live_subs_mac.py:221`, one ASR thread
started at `live_subs_mac.py:335`). -/
inductive Ev where
  | start : ℕ → Ev
  | finish : ℕ → Ev
deriving DecidableEq

/-- The dispatch loop of `asr_thread` over a sequence of analysis windows
(`live_subs_mac.py:221`–`223`), instrumented with the call events: each
window is transcribed synchronously (the call starts and returns before the
loop continues); non-empty text is enqueued (`if text: text_q.put(text)`);
an engine exception propagates out of the loop body, which has no handler
around the transcription call, so the loop terminates and later windows are
never processed. -/
def runFrom (engine : List ℚ → Except (List Char) (List Char)) :
    ℕ → List (List ℚ) → List (List Char) × List Ev × Bool
  | _, [] => ([], [], false)
  | k, w :: ws =>
    match engine w with
    | Except.error _ => ([], [Ev.start k, Ev.finish k], true)
    | Except.ok t =>
      let r := runFrom engine (k + 1) ws
      (if t = [] then r.1 else t :: r.1, Ev.start k :: Ev.finish k :: r.2.1, r.2.2)

/-- The dispatch loop started on the window sequence, numbering calls from
window 0: the enqueued texts, the call-event trace, and whether the loop was
killed by an engine exception. -/
def runDispatch (engine : List ℚ → Except (List Char) (List Char))
    (ws : List (List ℚ)) : List (List Char) × List Ev × Bool :=
  runFrom engine 0 ws

/-- Running count of in-flight transcription calls along an event trace,
returning the maximum depth reached. -/
def maxDepthAux : ℕ → ℕ → List Ev → ℕ
  | _, mx, [] => mx
  | cur, mx, Ev.start _ :: rest => maxDepthAux (cur + 1) (max mx (cur + 1)) rest
  | cur, mx, Ev.finish _ :: rest => maxDepthAux (cur - 1) mx rest

/-- Maximum transcription-call concurrency depth over an event trace. -/
def maxDepthOf (evs : List Ev) : ℕ := maxDepthAux 0 0 evs

/-- An engine that raises on the first window and would succeed on any
other: the concrete failing scenario for the dispatch loop. -/
def engineBoom : List ℚ → Except (List Char) (List Char) :=
  fun w => if w = [] then Except.error ['b', 'o', 'o', 'm'] else Except.ok ['h', 'e', 'l', 'l', 'o']

/-- An engine that returns empty text for window A (`[]`) and `"hello"` for
any other window: the empty-result scenario. -/
def engineAB : List ℚ → Except (List Char) (List Char) :=
  fun w => if w = [] then Except.ok [] else Except.ok ['h', 'e', 'l', 'l', 'o']

lemma suffix_append_same {α : Type*} {l₁ l₂ : List α} (h : l₁ <:+ l₂)
    (m : List α) : l₁ ++ m <:+ l₂ ++ m := by
  obtain ⟨s, rfl⟩ := h
  exact ⟨s, (List.append_assoc s l₁ m).symm⟩

lemma appendLine_suffix (lines : List (List Char)) (t : List Char)
    (h : pyStrip t ≠ []) : appendLine lines t <:+ lines ++ [pyStrip t] := by
  simp only [appendLine, if_neg h]
  split_ifs with hl
  · exact List.drop_suffix _ _
  · exact List.suffix_refl _

lemma appendLine_length_le (lines : List (List Char)) (t : List Char)
    (h : lines.length ≤ KEEP_LINES) : (appendLine lines t).length ≤ KEEP_LINES := by
  simp only [appendLine]
  split_ifs with h1 h2
  · exact h
  · rw [List.length_drop]
    omega
  · simp only [List.length_append, List.length_singleton] at h2 ⊢
    omega

lemma foldl_appendLine_le (ts : List (List Char)) :
    ∀ lines : List (List Char), lines.length ≤ KEEP_LINES →
      (ts.foldl appendLine lines).length ≤ KEEP_LINES := by
  induction ts with
  | nil => intro lines h; simpa using h
  | cons t ts ih =>
    intro lines h
    rw [List.foldl_cons]
    exact ih _ (appendLine_length_le lines t h)

lemma foldl_appendLine_suffix (ts : List (List Char)) :
    ∀ lines : List (List Char),
      ts.foldl appendLine lines <:+
        lines ++ (ts.filter (fun u => !(pyStrip u).isEmpty)).map pyStrip := by
  induction ts with
  | nil => intro lines; simp
  | cons t ts ih =>
    intro lines
    rw [List.foldl_cons, List.filter_cons]
    by_cases h : pyStrip t = []
    · have h1 : appendLine lines t = lines := by simp [appendLine, h]
      have hb : (!(pyStrip t).isEmpty) = false := by
        simp [List.isEmpty_iff, h]
      rw [h1, hb, if_neg (by simp)]
      exact ih lines
    · have hb : (!(pyStrip t).isEmpty) = true := by
        simp [List.isEmpty_iff, h]
      rw [hb, if_pos rfl, List.map_cons]
      have h2 := suffix_append_same (appendLine_suffix lines t h)
        ((ts.filter (fun u => !(pyStrip u).isEmpty)).map pyStrip)
      have h3 := ih (appendLine lines t)
      have h4 : (lines ++ [pyStrip t]) ++
          (ts.filter (fun u => !(pyStrip u).isEmpty)).map pyStrip
          = lines ++ pyStrip t ::
            (ts.filter (fun u => !(pyStrip u).isEmpty)).map pyStrip := by
        simp
      exact h4 ▸ h3.trans h2

lemma appendLine_getLast (lines : List (List Char)) (t : List Char)
    (h : pyStrip t ≠ []) : (appendLine lines t).getLast? = some (pyStrip t) := by
  simp only [appendLine, if_neg h]
  split_ifs with hl
  · have hk : (lines ++ [pyStrip t]).length - KEEP_LINES ≤ lines.length := by
      simp only [List.length_append, List.length_singleton, KEEP_LINES]
      omega
    rw [List.drop_append_of_le_length hk]
    exact List.getLast?_concat _
  · exact List.getLast?_concat _

lemma foldl_rawPut (bs : List RawBlock) : ∀ q, bs.foldl rawPut q = q ++ bs := by
  induction bs with
  | nil => intro q; simp
  | cons b bs ih =>
    intro q
    rw [List.foldl_cons, ih]
    simp [rawPut]

lemma maxDepthAux_runFrom_le (engine : List ℚ → Except (List Char) (List Char)) :
    ∀ (ws : List (List ℚ)) (k mx : ℕ),
      maxDepthAux 0 mx (runFrom engine k ws).2.1 ≤ max mx 1 := by
  intro ws
  induction ws with
  | nil =>
    intro k mx
    simp [runFrom, maxDepthAux]
  | cons w ws ih =>
    intro k mx
    cases hE : engine w with
    | error e =>
      simp [runFrom, hE, maxDepthAux]
    | ok t =>
      simp only [runFrom, hE, maxDepthAux]
      have h := ih (k + 1) (max mx (0 + 1))
      have hmax : max (max mx (0 + 1)) 1 = max mx 1 := by omega
      rw [hmax] at h
      exact h

/-- C1: every analysis window the `asr_thread` loop dispatches to
transcription has exactly `target_block = TARGET_SR × BLOCK_SEC = 40000`
samples: the resampled span always holds 48000 ≥ 40000 samples, and the
source keeps only the most recent `target_block` of them. -/
theorem c1_emitted_window_exact_length :
    ∀ (buf : List ℚ) (block : RawBlock),
      ((asrStep buf block).2).elim True (fun w => w.length = target_block) := by
  intro buf block
  exact emitWindow_some_length _

/-- C2 (counterexample): resampling the one-sample input `[0]` from 48000 Hz
to 16000 Hz yields one sample, not `round(1 · 16000/48000) = 0` samples, so
the output length is not `round(L·Dr/Sr)` for every input length. -/
theorem c2_counterexample :
    ¬ ((simple_resample [(0 : ℚ)] 48000 16000).length
        = (pyRound ((1 : ℚ) * ((16000 : ℚ) / (48000 : ℚ)))).toNat) := by
  have h1 : simple_resample [(0 : ℚ)] 48000 16000 = [0] := by
    norm_num [simple_resample, pyRound]
  have h2 : pyRound ((1 : ℚ) * ((16000 : ℚ) / (48000 : ℚ))) = 0 := by
    norm_num [pyRound]
  rw [h1, h2]
  norm_num

/-- C2 (amended): for every source rate `s > 0`, target rate `d` and input
`x`, the resampled length is `round(L·d/s)` clamped below by 1 for non-empty
inputs (the source returns `x[:1]` when the rounded length is `≤ 1`), and 0
for empty inputs; an all-zero input always resamples to an all-zero
output. -/
theorem c2_resample_length (x : List ℚ) (s d : ℕ) (hs : 0 < s) :
    ((simple_resample x s d).length =
      if x.length = 0 then 0
      else max 1 (pyRound ((x.length : ℚ) * ((d : ℚ) / (s : ℚ)))).toNat) ∧
    ((∀ v ∈ x, v = 0) → ∀ y ∈ simple_resample x s d, y = 0) :=
  ⟨simple_resample_length x s d hs, simple_resample_zero x s d⟩

/-- Witness for C2's amended theorem at the concrete input `[0,0,0]`,
`s = 3`, `d = 1`: the rounded length is 1, so the output has length
`max 1 1 = 1`. -/
theorem c2_resample_length_witness :
    (simple_resample [(0 : ℚ), 0, 0] 3 1).length =
      if ([(0 : ℚ), 0, 0].length = 0) then 0
      else max 1 (pyRound (([(0 : ℚ), 0, 0].length : ℚ)
        * (((1 : ℕ) : ℚ) / ((3 : ℕ) : ℚ)))).toNat :=
  (c2_resample_length [0, 0, 0] 3 1 (by norm_num)).1

/-- C3 (counterexample): `raw_q = queue.Queue()` is unbounded, so no finite
capacity bounds the queue length over all delivery sequences: delivering
`cap + 1` frames leaves `cap + 1` queued items. -/
theorem c3_counterexample :
    ¬ ∃ cap : ℕ, ∀ bs : List RawBlock, (bs.foldl rawPut []).length ≤ cap := by
  rintro ⟨cap, h⟩
  have h2 := h (List.replicate (cap + 1) [])
  rw [foldl_rawPut] at h2
  simp at h2

/-- C3 (amended): every frame delivered by the capture callback is appended
to an unbounded FIFO queue; nothing is ever dropped, so after any delivery
sequence into an initially empty queue the queue holds exactly the delivered
frames in arrival order and its length equals the number of deliveries. -/
theorem c3_unbounded_fifo_handoff :
    ∀ bs : List RawBlock,
      bs.foldl rawPut [] = bs ∧ (bs.foldl rawPut []).length = bs.length := by
  intro bs
  rw [foldl_rawPut]
  simp

/-- C4 (code behaviour at the failing input): an engine that raises on the
first window terminates the dispatch loop — the second window is never
transcribed, its text is never enqueued, and the loop reports the crash. -/
theorem c4_engine_failure_kills_loop :
    runDispatch engineBoom [[], [(0 : ℚ)]]
      = ([], [Ev.start 0, Ev.finish 0], true) := by
  decide

/-- C5 (code behaviour at the failing input): the source requires a constant
`need_src_len = 144000` native-rate samples — `3.0 s` at the assumed
48000 Hz — before emitting, whereas the specification requires
`(BLOCK_SEC + OVERLAP_SEC)` seconds at the negotiated rate, which at a
negotiated 44100 Hz is 132300 samples. -/
theorem c5_required_span_uses_assumed_rate :
    need_src_len = 144000 ∧ spec_need_src_len 44100 = 132300 ∧
      need_src_len ≠ spec_need_src_len 44100 := by
  have h : spec_need_src_len 44100 = 132300 := by
    have h2 : ⌊(BLOCK_SEC + OVERLAP_SEC) * ((44100 : ℕ) : ℚ)⌋ = 132300 := by
      norm_num [BLOCK_SEC, OVERLAP_SEC]
    rw [spec_need_src_len, h2]
    rfl
  refine ⟨need_src_len_eq, h, ?_⟩
  rw [need_src_len_eq, h]
  norm_num

/-- C6: the dispatch loop invokes the engine synchronously from a single
worker, so over any window sequence and any engine behaviour the
concurrency depth of transcription calls never exceeds 1. -/
theorem c6_single_flight_depth_le_one :
    ∀ (engine : List ℚ → Except (List Char) (List Char)) (ws : List (List ℚ)),
      maxDepthOf (runDispatch engine ws).2.1 ≤ 1 := by
  intro engine ws
  have h := maxDepthAux_runFrom_le engine ws 0 0
  simpa [maxDepthOf, runDispatch] using h

/-- C7: after any `asr_thread` iteration the rolling buffer holds
`min (previous ++ new mono) maxRetention` samples — never more than
`maxRetention = 48000·60` — and what it holds is a suffix (the most recent
samples) of the appended buffer, so overflow drops the oldest samples. -/
theorem c7_rolling_buffer_bounded :
    ∀ (buf : List ℚ) (block : RawBlock),
      ((asrStep buf block).1).length
          = min (buf ++ monoMix block).length maxRetention ∧
        (asrStep buf block).1 <:+ (buf ++ monoMix block) := by
  intro buf block
  constructor
  · show (trimBuffer (buf ++ monoMix block)).length = _
    rw [trimBuffer]
    split_ifs with h
    · rw [List.length_drop]
      omega
    · omega
  · show trimBuffer (buf ++ monoMix block) <:+ _
    rw [trimBuffer]
    split_ifs with h
    · exact List.drop_suffix _ _
    · exact List.suffix_refl _

/-- C8: the caption sink never holds more than `KEEP_LINES` lines after any
append sequence from empty; the held lines are always a suffix of the full
non-blank stripped history (oldest evicted first, relative order kept); and
appending six distinct lines with `KEEP_LINES = 4` leaves exactly the last
four in order. -/
theorem c8_caption_sink_bounded :
    (∀ ts : List (List Char), (ts.foldl appendLine []).length ≤ KEEP_LINES) ∧
    (∀ (lines ts : List (List Char)),
      ts.foldl appendLine lines <:+
        lines ++ (ts.filter (fun u => !(pyStrip u).isEmpty)).map pyStrip) ∧
    [['l', '1'], ['l', '2'], ['l', '3'], ['l', '4'], ['l', '5'], ['l', '6']].foldl
        appendLine [] = [['l', '3'], ['l', '4'], ['l', '5'], ['l', '6']] :=
  ⟨fun ts => foldl_appendLine_le ts [] (by simp),
   fun lines ts => foldl_appendLine_suffix ts lines,
   by decide⟩

/-- C9: blank text leaves the caption sink unchanged; non-blank text is
stored stripped of surrounding whitespace (it becomes the newest line); and
an engine returning `""` for window A and `"hello"` for window B leaves the
sink with exactly the single line `"hello"`, the empty result having been
discarded before enqueueing. -/
theorem c9_blank_and_empty_handling :
    (∀ (lines : List (List Char)) (t : List Char), pyStrip t = [] →
      appendLine lines t = lines) ∧
    (∀ (lines : List (List Char)) (t : List Char), pyStrip t ≠ [] →
      (appendLine lines t).getLast? = some (pyStrip t)) ∧
    (runDispatch engineAB [[], [(0 : ℚ)]]).1.foldl appendLine []
      = [['h', 'e', 'l', 'l', 'o']] :=
  ⟨fun lines t h => by simp [appendLine, h],
   fun lines t h => appendLine_getLast lines t h,
   by decide⟩

/-- Witness for C9 at concrete inputs: appending `"   "` changes nothing,
and appending `" hi "` stores the stripped text as the newest line. -/
theorem c9_blank_and_empty_handling_witness :
    appendLine [['x']] [' ', ' ', ' '] = [['x']] ∧
    (appendLine [] [' ', 'h', 'i', ' ']).getLast? = some (pyStrip [' ', 'h', 'i', ' ']) :=
  ⟨c9_blank_and_empty_handling.1 [['x']] [' ', ' ', ' '] (by decide),
   c9_blank_and_empty_handling.2.1 [] [' ', 'h', 'i', ' '] (by decide)⟩

/-- C10: every output sample of `simple_resample` lies between any lower and
upper bound of the (non-empty) input samples — in particular inputs in
`[-1, 1]` resample into `[-1, 1]` — and the function is total, returning
`[]` on empty input. -/
theorem c10_resample_range (x : List ℚ) (s d : ℕ) (a b : ℚ)
    (ha : ∀ v ∈ x, a ≤ v) (hb : ∀ v ∈ x, v ≤ b) (hx : x ≠ []) :
    (∀ y ∈ simple_resample x s d, a ≤ y ∧ y ≤ b) ∧
      simple_resample ([] : List ℚ) s d = [] :=
  ⟨simple_resample_mem_bounds x s d a b hx ha hb, simple_resample_nil s d⟩

/-- Witness for C10 at the concrete input `[1/2]` with bounds `[0, 1]`:
the single output sample `1/2` stays within the bounds, and the empty
input resamples to the empty output. -/
theorem c10_resample_range_witness :
    ((0 : ℚ) ≤ (1/2 : ℚ) ∧ (1/2 : ℚ) ≤ 1) ∧
      simple_resample ([] : List ℚ) 2 1 = [] := by
  have hmem : (1/2 : ℚ) ∈ simple_resample [(1/2 : ℚ)] 2 1 := by
    norm_num [simple_resample, pyRound]
  exact ⟨(c10_resample_range [(1/2 : ℚ)] 2 1 0 1 (by norm_num) (by norm_num)
      (by simp)).1 _ hmem,
    (c10_resample_range [(1/2 : ℚ)] 2 1 0 1 (by norm_num) (by norm_num)
      (by simp)).2⟩
